import Mathlib

/-!
# FileVault backend — verification of the uploads route logic

Shallow embedding of the FileVault backend (an Express service mediating
uploads/downloads between clients, an S3-style object store and a Firestore
metadata store).  The pure helpers (`sanitizeFileName`, `getUserStorageId`)
are translated directly from `src/routes/uploads.js`; the per-request
handlers are translated as pure functions over an explicit store state, with
the nondeterministic inputs of a request (the random uuid, the signing
service, the clock, the identity provider) passed in as parameters, and the
external calls a handler makes recorded as an `Effect` trace.
-/

namespace FileVault

/-! ## Name sanitizer (src/routes/uploads.js, `sanitizeFileName`) -/

/-- The characters the sanitizer keeps: the regex class `[a-zA-Z0-9.\-_]`. -/
def allowedChar (c : Char) : Bool :=
  c.isAlphanum || c == '.' || c == '-' || c == '_'

/-- One character of the JS `replace`: a kept character stays as it is, any
other becomes an underscore. -/
def replaceDisallowed (c : Char) : Char :=
  if allowedChar c then c else '_'

/-- JS `String.prototype.split` with a one-character separator, over the
character list: `"a/b"` yields `["a","b"]`, `""` yields `[""]`, `"a/"`
yields `["a",""]`.  The result is never the empty list. -/
def splitConsCase (sep c : Char) : List (List Char) → List (List Char)
  | [] => [[]]
  | h :: t => if c == sep then [] :: h :: t else (c :: h) :: t

def splitOnChar (sep : Char) : List Char → List (List Char)
  | [] => [[]]
  | c :: cs => splitConsCase sep c (splitOnChar sep cs)

/-- JS `Array.prototype.pop()` as used on a split result: the last element
(the empty string for an empty array, which `splitOnChar` never produces). -/
def jsPop : List (List Char) → List Char
  | [] => []
  | [x] => x
  | _ :: x :: xs => jsPop (x :: xs)

/-- Character-level body of `sanitizeFileName`:
`name.split('/').pop().split('\\').pop()` followed by
`.replace(/[^a-zA-Z0-9.\-_]/g, '_')`. -/
def sanitizeChars (name : List Char) : List Char :=
  let onlyName := jsPop (splitOnChar '\\' (jsPop (splitOnChar '/' name)))
  onlyName.map replaceDisallowed

/-- `sanitizeFileName` from src/routes/uploads.js. -/
def sanitizeFileName (name : String) : String :=
  (sanitizeChars name.toList).asString

/-- Modelled from the spec's words, for comparison with `sanitizeChars`:
"retain only the final path segment" — the suffix that follows the last
occurrence of any separator character. -/
def finalSegment (seps : List Char) : List Char → List Char
  | [] => []
  | c :: cs =>
    if c ∈ seps ∨ (∃ d ∈ cs, d ∈ seps) then finalSegment seps cs else c :: cs

/-- Modelled from the spec's words: the final path segment with respect to
both separators, then every disallowed character replaced. -/
def sanitizeSpec (name : List Char) : List Char :=
  (finalSegment ['/', '\\'] name).map replaceDisallowed

/-! ### Lemmas relating the split/pop implementation to `finalSegment` -/

theorem splitOnChar_ne_nil (sep : Char) (l : List Char) :
    splitOnChar sep l ≠ [] := by
  cases l with
  | nil => simp [splitOnChar]
  | cons c cs =>
    simp only [splitOnChar]
    cases splitOnChar sep cs with
    | nil => simp [splitConsCase]
    | cons h t =>
      by_cases hc : c == sep <;> simp [splitConsCase, hc]

theorem splitOnChar_of_not_mem (sep : Char) (l : List Char) (h : sep ∉ l) :
    splitOnChar sep l = [l] := by
  induction l with
  | nil => rfl
  | cons c cs ih =>
    have hc : ¬(c == sep) := by
      simp only [beq_iff_eq]
      intro he; exact h (he ▸ List.mem_cons_self c cs)
    have hcs : sep ∉ cs := fun hm => h (List.mem_cons_of_mem c hm)
    simp only [splitOnChar, ih hcs]
    simp [splitConsCase, hc]

theorem splitOnChar_length_ge_two (sep : Char) (l : List Char) (h : sep ∈ l) :
    2 ≤ (splitOnChar sep l).length := by
  induction l with
  | nil => cases h
  | cons c cs ih =>
    simp only [splitOnChar]
    cases hs : splitOnChar sep cs with
    | nil => exact absurd hs (splitOnChar_ne_nil sep cs)
    | cons h0 t =>
      simp only [splitConsCase]
      by_cases hc : c == sep
      · simp [hc]
      · have hm : sep ∈ cs := by
          rcases List.mem_cons.mp h with he | hm
          · exact absurd (beq_iff_eq.mpr he.symm) hc
          · exact hm
        have := ih hm
        rw [hs] at this
        simp only [List.length_cons] at this
        simp [hc]
        omega

theorem jsPop_cons_cons (x y : List Char) (t : List (List Char)) :
    jsPop (x :: y :: t) = jsPop (y :: t) := rfl

theorem jsPop_splitOnChar_eq_finalSegment (sep : Char) (l : List Char) :
    jsPop (splitOnChar sep l) = finalSegment [sep] l := by
  induction l with
  | nil => rfl
  | cons c cs ih =>
    simp only [splitOnChar]
    cases hs : splitOnChar sep cs with
    | nil => exact absurd hs (splitOnChar_ne_nil sep cs)
    | cons h0 t =>
      simp only [splitConsCase]
      by_cases hc : c == sep
      · have hceq : c = sep := beq_iff_eq.mp hc
        rw [if_pos hc, jsPop_cons_cons, ← hs, ih]
        have : c ∈ [sep] ∨ (∃ d ∈ cs, d ∈ [sep]) := Or.inl (by simp [hceq])
        simp only [finalSegment, if_pos this]
      · have hcne : c ≠ sep := fun he => hc (beq_iff_eq.mpr he)
        rw [if_neg hc]
        by_cases hmem : sep ∈ cs
        · cases t with
          | nil =>
            have := splitOnChar_length_ge_two sep cs hmem
            rw [hs] at this
            simp at this
          | cons t0 ts =>
            rw [jsPop_cons_cons]
            have hlast : jsPop (t0 :: ts) = finalSegment [sep] cs := by
              rw [← jsPop_cons_cons h0 t0 ts, ← hs, ih]
            rw [hlast]
            have hcond : c ∈ [sep] ∨ (∃ d ∈ cs, d ∈ [sep]) :=
              Or.inr ⟨sep, hmem, by simp⟩
            simp only [finalSegment, if_pos hcond]
        · have hone : splitOnChar sep cs = [cs] := splitOnChar_of_not_mem sep cs hmem
          rw [hs] at hone
          cases hone
          have hcond : ¬(c ∈ [sep] ∨ (∃ d ∈ cs, d ∈ [sep])) := by
            rintro (h1 | ⟨d, hd, hds⟩)
            · exact hcne (by simpa using h1)
            · have hde : d = sep := by simpa using hds
              exact hmem (hde ▸ hd)
          simp only [finalSegment, if_neg hcond, jsPop]

theorem finalSegment_of_not_mem_left (l : List Char) (h : '/' ∉ l) :
    finalSegment ['\\'] l = finalSegment ['/', '\\'] l := by
  induction l with
  | nil => rfl
  | cons c cs ih =>
    have hc : c ≠ '/' := fun he => h (he ▸ List.mem_cons_self c cs)
    have hcs : '/' ∉ cs := fun hm => h (List.mem_cons_of_mem c hm)
    by_cases hb : c = '\\' ∨ (∃ d ∈ cs, d = '\\')
    · have h1 : c ∈ ['\\'] ∨ (∃ d ∈ cs, d ∈ (['\\'] : List Char)) := by
        rcases hb with h1 | ⟨d, hd, hd2⟩
        · exact Or.inl (by simp [h1])
        · exact Or.inr ⟨d, hd, by simp [hd2]⟩
      have h2 : c ∈ ['/', '\\'] ∨ (∃ d ∈ cs, d ∈ (['/', '\\'] : List Char)) := by
        rcases hb with h1 | ⟨d, hd, hd2⟩
        · exact Or.inl (by simp [h1])
        · exact Or.inr ⟨d, hd, by simp [hd2]⟩
      simp only [finalSegment, if_pos h1, if_pos h2]
      exact ih hcs
    · have h1 : ¬(c ∈ ['\\'] ∨ (∃ d ∈ cs, d ∈ (['\\'] : List Char))) := by
        rintro (h1 | ⟨d, hd, hd2⟩)
        · exact hb (Or.inl (by simpa using h1))
        · exact hb (Or.inr ⟨d, hd, by simpa using hd2⟩)
      have h2 : ¬(c ∈ ['/', '\\'] ∨ (∃ d ∈ cs, d ∈ (['/', '\\'] : List Char))) := by
        rintro (h1 | ⟨d, hd, hd2⟩)
        · rcases (by simpa using h1 : c = '/' ∨ c = '\\') with he | he
          · exact hc he
          · exact hb (Or.inl he)
        · rcases (by simpa using hd2 : d = '/' ∨ d = '\\') with he | he
          · exact hcs (he ▸ hd)
          · exact hb (Or.inr ⟨d, hd, he⟩)
      simp only [finalSegment, if_neg h1, if_neg h2]

theorem finalSegment_no_sep (seps : List Char) (l : List Char) :
    ∀ d ∈ finalSegment seps l, d ∉ seps := by
  induction l with
  | nil => simp [finalSegment]
  | cons c cs ih =>
    by_cases hb : c ∈ seps ∨ (∃ d ∈ cs, d ∈ seps)
    · simpa only [finalSegment, if_pos hb] using ih
    · simp only [finalSegment, if_neg hb]
      intro d hd hds
      push_neg at hb
      rcases List.mem_cons.mp hd with he | hm
      · exact hb.1 (he ▸ hds)
      · exact hb.2 d hm hds

theorem finalSegment_comp (l : List Char) :
    finalSegment ['\\'] (finalSegment ['/'] l) = finalSegment ['/', '\\'] l := by
  induction l with
  | nil => rfl
  | cons c cs ih =>
    by_cases hb : c = '/' ∨ (∃ d ∈ cs, d = '/')
    · have h1 : c ∈ ['/'] ∨ (∃ d ∈ cs, d ∈ (['/'] : List Char)) := by
        rcases hb with h1 | ⟨d, hd, hd2⟩
        · exact Or.inl (by simp [h1])
        · exact Or.inr ⟨d, hd, by simp [hd2]⟩
      have h2 : c ∈ ['/', '\\'] ∨ (∃ d ∈ cs, d ∈ (['/', '\\'] : List Char)) := by
        rcases hb with h1 | ⟨d, hd, hd2⟩
        · exact Or.inl (by simp [h1])
        · exact Or.inr ⟨d, hd, by simp [hd2]⟩
      simp only [finalSegment, if_pos h1, if_pos h2, ih]
    · have h1 : ¬(c ∈ ['/'] ∨ (∃ d ∈ cs, d ∈ (['/'] : List Char))) := by
        rintro (h1 | ⟨d, hd, hd2⟩)
        · exact hb (Or.inl (by simpa using h1))
        · exact hb (Or.inr ⟨d, hd, by simpa using hd2⟩)
      have hnotl : '/' ∉ c :: cs := by
        intro hm
        rcases List.mem_cons.mp hm with he | hm2
        · exact hb (Or.inl he.symm)
        · exact hb (Or.inr ⟨'/', hm2, rfl⟩)
      simp only [finalSegment, if_neg h1]
      exact finalSegment_of_not_mem_left (c :: cs) hnotl

/-- The implementation equals the spec-side sanitizer. -/
theorem sanitizeChars_eq_sanitizeSpec (l : List Char) :
    sanitizeChars l = sanitizeSpec l := by
  unfold sanitizeChars sanitizeSpec
  rw [jsPop_splitOnChar_eq_finalSegment, jsPop_splitOnChar_eq_finalSegment,
    finalSegment_comp]

/-! ## SHA-256 (the `crypto.createHash('sha256')` call in `getUserStorageId`)

Machine words are `Nat` reduced mod `2 ^ 32`; message bytes are `Nat`
values below 256. -/

namespace SHA256

/-- Truncation to a 32-bit word. -/
def w32 (n : Nat) : Nat := n % 2 ^ 32

/-- Right rotation of a 32-bit word. -/
def rotr (n x : Nat) : Nat := w32 ((x >>> n) ||| (x <<< (32 - n)))

def bigSigma0 (x : Nat) : Nat := rotr 2 x ^^^ rotr 13 x ^^^ rotr 22 x
def bigSigma1 (x : Nat) : Nat := rotr 6 x ^^^ rotr 11 x ^^^ rotr 25 x
def smallSigma0 (x : Nat) : Nat := rotr 7 x ^^^ rotr 18 x ^^^ (x >>> 3)
def smallSigma1 (x : Nat) : Nat := rotr 17 x ^^^ rotr 19 x ^^^ (x >>> 10)

def ch (x y z : Nat) : Nat := (x &&& y) ^^^ ((x ^^^ 0xffffffff) &&& z)
def maj (x y z : Nat) : Nat := (x &&& y) ^^^ (x &&& z) ^^^ (y &&& z)

/-- The 64 round constants, in the eight groups of FIPS 180-4. -/
def K : List Nat :=
  [0x428a2f98, 0x71374491, 0xb5c0fbcf, 0xe9b5dba5,
   0x3956c25b, 0x59f111f1, 0x923f82a4, 0xab1c5ed5] ++
  [0xd807aa98, 0x12835b01, 0x243185be, 0x550c7dc3,
   0x72be5d74, 0x80deb1fe, 0x9bdc06a7, 0xc19bf174] ++
  [0xe49b69c1, 0xefbe4786, 0x0fc19dc6, 0x240ca1cc,
   0x2de92c6f, 0x4a7484aa, 0x5cb0a9dc, 0x76f988da] ++
  [0x983e5152, 0xa831c66d, 0xb00327c8, 0xbf597fc7,
   0xc6e00bf3, 0xd5a79147, 0x06ca6351, 0x14292967] ++
  [0x27b70a85, 0x2e1b2138, 0x4d2c6dfc, 0x53380d13,
   0x650a7354, 0x766a0abb, 0x81c2c92e, 0x92722c85] ++
  [0xa2bfe8a1, 0xa81a664b, 0xc24b8b70, 0xc76c51a3,
   0xd192e819, 0xd6990624, 0xf40e3585, 0x106aa070] ++
  [0x19a4c116, 0x1e376c08, 0x2748774c, 0x34b0bcb5,
   0x391c0cb3, 0x4ed8aa4a, 0x5b9cca4f, 0x682e6ff3] ++
  [0x748f82ee, 0x78a5636f, 0x84c87814, 0x8cc70208,
   0x90befffa, 0xa4506ceb, 0xbef9a3f7, 0xc67178f2]

/-- The running hash value: eight 32-bit words. -/
structure Hash where
  a : Nat
  b : Nat
  c : Nat
  d : Nat
  e : Nat
  f : Nat
  g : Nat
  h : Nat
deriving Repr, DecidableEq

/-- The initial hash value. -/
def H0 : Hash :=
  ⟨0x6a09e667, 0xbb67ae85, 0x3c6ef372, 0xa54ff53a,
   0x510e527f, 0x9b05688c, 0x1f83d9ab, 0x5be0cd19⟩

/-- One compression round. -/
def round (st : Hash) (k w : Nat) : Hash :=
  let t1 := w32 (st.h + bigSigma1 st.e + ch st.e st.f st.g + k + w)
  let t2 := w32 (bigSigma0 st.a + maj st.a st.b st.c)
  ⟨w32 (t1 + t2), st.a, st.b, st.c, w32 (st.d + t1), st.e, st.f, st.g⟩

/-- Extend the 16 block words by `n` schedule words. -/
def extendWords : List Nat → Nat → List Nat
  | ws, 0 => ws
  | ws, n + 1 =>
    let t := ws.length
    let next := w32 (smallSigma1 (ws.getD (t - 2) 0) + ws.getD (t - 7) 0
      + smallSigma0 (ws.getD (t - 15) 0) + ws.getD (t - 16) 0)
    extendWords (ws ++ [next]) n

/-- Compress one 16-word block into the running hash. -/
def compress (st : Hash) (block : List Nat) : Hash :=
  let ws := extendWords block 48
  let r := (K.zip ws).foldl (fun s kw => round s kw.1 kw.2) st
  ⟨w32 (r.a + st.a), w32 (r.b + st.b), w32 (r.c + st.c), w32 (r.d + st.d),
   w32 (r.e + st.e), w32 (r.f + st.f), w32 (r.g + st.g), w32 (r.h + st.h)⟩

/-- Big-endian 4-byte groups to 32-bit words. -/
def toWords : List Nat → List Nat
  | b0 :: b1 :: b2 :: b3 :: rest =>
    (((b0 * 256 + b1) * 256 + b2) * 256 + b3) :: toWords rest
  | _ => []

/-- Split the padded byte list into 16-word blocks of 64 bytes each. -/
def blocks : List Nat → List (List Nat)
  | [] => []
  | l@(_ :: _) => toWords (l.take 64) :: blocks (l.drop 64)
termination_by l => l.length
decreasing_by
  rename_i h
  simp [List.length_drop, h]
  omega

/-- The big-endian 8-byte encoding of the bit length. -/
def lengthBytes (n : Nat) : List Nat :=
  [(n >>> 56) % 256, (n >>> 48) % 256, (n >>> 40) % 256, (n >>> 32) % 256,
   (n >>> 24) % 256, (n >>> 16) % 256, (n >>> 8) % 256, n % 256]

/-- SHA-256 padding: a 0x80 byte, zeros to 56 mod 64, the bit length. -/
def pad (msg : List Nat) : List Nat :=
  msg ++ 0x80 :: (List.replicate ((119 - msg.length % 64) % 64) 0
    ++ lengthBytes (8 * msg.length))

/-- The SHA-256 digest of a byte list, as the eight final hash words. -/
def sha256 (msg : List Nat) : Hash :=
  (blocks (pad msg)).foldl compress H0

/-- One hexadecimal digit, lowercase. -/
def hexDigit (n : Nat) : Char :=
  if n < 10 then Char.ofNat (48 + n) else if n < 16 then Char.ofNat (87 + n) else '0'

/-- The eight hex digits of one 32-bit word, most significant first. -/
def wordHex (w : Nat) : List Char :=
  [hexDigit ((w >>> 28) % 16), hexDigit ((w >>> 24) % 16),
   hexDigit ((w >>> 20) % 16), hexDigit ((w >>> 16) % 16),
   hexDigit ((w >>> 12) % 16), hexDigit ((w >>> 8) % 16),
   hexDigit ((w >>> 4) % 16), hexDigit (w % 16)]

/-- `.digest('hex')`: the 64 hex characters of the eight hash words. -/
def digestHex (hv : Hash) : List Char :=
  wordHex hv.a ++ wordHex hv.b ++ wordHex hv.c ++ wordHex hv.d ++
  wordHex hv.e ++ wordHex hv.f ++ wordHex hv.g ++ wordHex hv.h

theorem length_wordHex (w : Nat) : (wordHex w).length = 8 := rfl

theorem length_digestHex (hv : Hash) : (digestHex hv).length = 64 := by
  simp [digestHex, length_wordHex]

theorem hexDigit_mem (n : Nat) :
    hexDigit n ∈ ("0123456789abcdef".toList) := by
  unfold hexDigit
  split
  · rename_i h
    interval_cases n <;> decide
  · split
    · rename_i h1 h2
      have : 10 ≤ n := Nat.le_of_not_lt h1
      interval_cases n <;> decide
    · decide

theorem wordHex_mem (w : Nat) :
    ∀ c ∈ wordHex w, c ∈ ("0123456789abcdef".toList) := by
  intro c hc
  simp only [wordHex, List.mem_cons, List.not_mem_nil, or_false] at hc
  rcases hc with h | h | h | h | h | h | h | h <;> exact h ▸ hexDigit_mem _

theorem digestHex_mem (hv : Hash) :
    ∀ c ∈ digestHex hv, c ∈ ("0123456789abcdef".toList) := by
  intro c hc
  simp only [digestHex, List.mem_append] at hc
  rcases hc with ((((((h | h) | h) | h) | h) | h) | h) | h <;>
    exact wordHex_mem _ c h

end SHA256

/-- `getUserStorageId` from src/routes/uploads.js: the SHA-256 hex digest of
the UTF-8 bytes of the uid, truncated to its first 32 characters. -/
def getUserStorageId (uid : String) : String :=
  ((SHA256.digestHex (SHA256.sha256 (uid.toUTF8.toList.map UInt8.toNat))).take 32).asString

/-! ## Data model and effect traces -/

/-- One Firestore document of the `files` collection, with its id.
`objectKey` is optional because the delete handler guards against records
that lack it; `size` is optional because `size: size || null` may store
null. -/
structure FileRecord where
  id : String
  uid : String
  userStorageId : String
  bucket : String
  objectKey : Option String
  originalName : String
  mimeType : String
  size : Option Int
  createdAt : Nat
deriving Repr, DecidableEq

/-- One external call a handler makes, in order: pre-signing against S3,
deleting from S3, and the Firestore reads/writes. -/
inductive Effect where
  | s3SignPut (key : String)
  | s3SignGet (key : String)
  | s3Delete (key : String)
  | metaAdd (id : String)
  | metaQuery (uid : String)
  | metaGet (id : String)
  | metaDelete (id : String)
deriving Repr, DecidableEq

/-- A JS string body field is falsy when it is absent or the empty string
(the `if (!field)` guards). -/
def jsFalsyStr : Option String → Bool
  | none => true
  | some s => s.isEmpty

/-- `size: size || null` on a numeric field: a falsy value (for an integer,
0) is stored as null. -/
def jsOrNull : Option Int → Option Int
  | none => none
  | some n => if n = 0 then none else some n

/-- The visible external state: the keys present in the S3 bucket and the
documents of the `files` collection. -/
structure St where
  objects : List String
  files : List FileRecord
deriving Repr, DecidableEq

/-! ## Request handlers (src/routes/uploads.js)

Each handler is the route body after `authMiddleware`, as a pure function.
Request-scoped nondeterminism is passed in: `sign` stands for
`getSignedUrl`, `uuid` for `uuidv4()`, `newId`/`now` for the Firestore
document id and server timestamp, and `s3DeleteOk` for whether
`s3.send(DeleteObjectCommand)` succeeds. -/

/-- The 200 body of POST /upload-url. -/
structure UploadOk where
  uploadUrl : String
  objectKey : String
  bucket : String
deriving Repr, DecidableEq

inductive UploadResult where
  | badRequest
  | ok (body : UploadOk)
deriving Repr, DecidableEq

/-- POST /upload-url (`router.post('/upload-url', ...)`). -/
def uploadUrlHandler (sign : String → String) (bucket uid uuid : String)
    (fileName fileType : Option String) : UploadResult × List Effect :=
  if jsFalsyStr fileName || jsFalsyStr fileType then (.badRequest, [])
  else
    let userStorageId := getUserStorageId uid
    let cleanName := sanitizeFileName (fileName.getD "")
    let objectKey := userStorageId ++ "/" ++ uuid ++ "-" ++ cleanName
    (.ok ⟨sign objectKey, objectKey, bucket⟩, [.s3SignPut objectKey])

inductive FilesResult where
  | badRequest
  | created (record : FileRecord)
deriving Repr, DecidableEq

/-- POST /files (`router.post('/files', ...)`): store the metadata record
and echo the persisted document back. -/
def filesHandler (bucket newId : String) (now : Nat) (files : List FileRecord)
    (uid : String) (objectKey originalName mimeType : Option String)
    (size : Option Int) : FilesResult × List FileRecord × List Effect :=
  if jsFalsyStr objectKey || jsFalsyStr originalName || jsFalsyStr mimeType then
    (.badRequest, files, [])
  else
    let r : FileRecord :=
      { id := newId
        uid := uid
        userStorageId := getUserStorageId uid
        bucket := bucket
        objectKey := some (objectKey.getD "")
        originalName := originalName.getD ""
        mimeType := mimeType.getD ""
        size := jsOrNull size
        createdAt := now }
    (.created r, files ++ [r], [.metaAdd newId])

inductive DownloadResult where
  | badRequest
  | notFound
  | ok (downloadUrl objectKey originalName mimeType : String)
deriving Repr, DecidableEq

/-- The Firestore query `where uid == uid, where objectKey == key, limit 1`. -/
def findByOwnerAndKey (files : List FileRecord) (uid key : String) :
    Option FileRecord :=
  files.find? (fun r => r.uid == uid && r.objectKey == some key)

/-- POST /download-url (`router.post('/download-url', ...)`). -/
def downloadUrlHandler (sign : String → String) (files : List FileRecord)
    (uid : String) (objectKey : Option String) : DownloadResult × List Effect :=
  if jsFalsyStr objectKey then (.badRequest, [])
  else
    let key := objectKey.getD ""
    match findByOwnerAndKey files uid key with
    | none => (.notFound, [.metaQuery uid])
    | some data =>
      (.ok (sign key) key data.originalName data.mimeType,
       [.metaQuery uid, .s3SignGet key])

inductive DeleteResult where
  | badRequest
  | notFound
  | forbidden
  | inconsistent
  | storeError
  | ok
deriving Repr, DecidableEq

/-- `db.collection('files').doc(id).get()`. -/
def getById (files : List FileRecord) (id : String) : Option FileRecord :=
  files.find? (fun r => r.id == id)

/-- DELETE /files/:id (`router.delete('/files/:id', ...)`).  When the S3
delete fails the thrown error is caught and the handler answers 500
(`storeError`) without touching the metadata store. -/
def deleteFileHandler (s3DeleteOk : String → Bool) (st : St)
    (uid fileId : String) : DeleteResult × St × List Effect :=
  if fileId.isEmpty then (.badRequest, st, [])
  else
    match getById st.files fileId with
    | none => (.notFound, st, [.metaGet fileId])
    | some data =>
      if data.uid ≠ uid then (.forbidden, st, [.metaGet fileId])
      else
        match data.objectKey with
        | none => (.inconsistent, st, [.metaGet fileId])
        | some key =>
          if key.isEmpty then (.inconsistent, st, [.metaGet fileId])
          else if s3DeleteOk key then
            (.ok,
             { objects := st.objects.filter (fun k => k != key)
               files := st.files.filter (fun r => r.id != fileId) },
             [.metaGet fileId, .s3Delete key, .metaDelete fileId])
          else (.storeError, st, [.metaGet fileId, .s3Delete key])

/-! ## Auth middleware (src/middleware/auth.js) -/

/-- Token extraction: `authHeader.startsWith('Bearer ') ? slice : null` on
`req.headers.authorization || ''`. -/
def bearerToken (authHeader : Option String) : Option String :=
  let hdr := authHeader.getD ""
  if hdr.startsWith "Bearer " then some (hdr.drop 7) else none

/-- The outcome of a protected route: 401 from the middleware, or the
handler's own response. -/
inductive Handled (α : Type) where
  | unauthenticated
  | handled (resp : α)
deriving Repr, DecidableEq

/-- A protected route: `authMiddleware` in front of a handler.  `verify`
stands for `admin.auth().verifyIdToken` (`none` = the provider rejects the
token and the middleware's catch answers 401). -/
def runProtected {α : Type} (verify : String → Option String)
    (authHeader : Option String) (handler : String → α × List Effect) :
    Handled α × List Effect :=
  match bearerToken authHeader with
  | none => (.unauthenticated, [])
  | some t =>
    if t.isEmpty then (.unauthenticated, [])
    else
      match verify t with
      | none => (.unauthenticated, [])
      | some uid => (.handled (handler uid).1, (handler uid).2)

/-! ## Helper lemmas -/

theorem replaceDisallowed_allowed (c : Char) :
    allowedChar (replaceDisallowed c) = true := by
  unfold replaceDisallowed
  split
  · assumption
  · decide

theorem sanitizeChars_allowed (l : List Char) :
    ∀ c ∈ sanitizeChars l, allowedChar c = true := by
  intro c hc
  unfold sanitizeChars at hc
  simp only [List.mem_map] at hc
  obtain ⟨d, _, rfl⟩ := hc
  exact replaceDisallowed_allowed d

theorem sanitizeChars_of_allowed (m : List Char)
    (h : ∀ c ∈ m, allowedChar c = true) : sanitizeChars m = m := by
  have h1 : '/' ∉ m := fun hmem => absurd (h _ hmem) (by decide)
  have h2 : '\\' ∉ m := fun hmem => absurd (h _ hmem) (by decide)
  unfold sanitizeChars
  rw [splitOnChar_of_not_mem '/' m h1]
  show (jsPop (splitOnChar '\\' (jsPop [m]))).map replaceDisallowed = m
  have hpop : jsPop [m] = m := rfl
  rw [hpop, splitOnChar_of_not_mem '\\' m h2, hpop]
  have hid : ∀ c ∈ m, replaceDisallowed c = c := fun c hc => by
    unfold replaceDisallowed
    rw [if_pos (h c hc)]
  calc m.map replaceDisallowed = m.map id := List.map_congr_left hid
    _ = m := List.map_id m

theorem sanitizeFileName_idem_aux (x : String) :
    sanitizeFileName (sanitizeFileName x) = sanitizeFileName x := by
  unfold sanitizeFileName
  rw [List.toList_asString,
    sanitizeChars_of_allowed _ (sanitizeChars_allowed x.toList)]

/-! ## The claims -/

/-- Claim C5: `sanitizeFileName` first retains only the final path segment
with respect to both '/' and '\' separators, then replaces every character
outside {A-Z, a-z, 0-9, '.', '-', '_'} with '_' — it coincides with
`sanitizeSpec`, the sanitizer written from the spec's words — it is a
total, deterministic function, and the empty string maps to the empty
string. -/
theorem sanitize_matches_spec :
    (∀ name : String, sanitizeFileName name = (sanitizeSpec name.toList).asString) ∧
    sanitizeFileName "" = "" := by
  constructor
  · intro name
    unfold sanitizeFileName
    rw [sanitizeChars_eq_sanitizeSpec]
  · rfl

/-- Claim C6: the sanitizer is idempotent on every string, its output
contains only characters of the allowed set, and directory-traversal
inputs such as `../../etc/passwd` and `a\b\c.txt` reduce to the sanitized
final path segment only. -/
theorem sanitize_idempotent_and_clean :
    (∀ x : String, sanitizeFileName (sanitizeFileName x) = sanitizeFileName x) ∧
    (∀ x : String, ∀ c ∈ (sanitizeFileName x).toList, allowedChar c = true) ∧
    sanitizeFileName "../../etc/passwd" = "passwd" ∧
    sanitizeFileName "a\\b\\c.txt" = "c.txt" := by
  refine ⟨sanitizeFileName_idem_aux, ?_, by decide, by decide⟩
  intro x c hc
  unfold sanitizeFileName at hc
  rw [List.toList_asString] at hc
  exact sanitizeChars_allowed x.toList c hc

/-- Claim C7: `getUserStorageId` is a pure, deterministic function whose
value is always a 32-character string of hexadecimal characters obtained by
truncating the SHA-256 digest of the uid, and equal uids always yield equal
prefixes. -/
theorem getUserStorageId_deterministic_hex :
    (∀ uid : String, (getUserStorageId uid).length = 32 ∧
      ∀ c ∈ (getUserStorageId uid).toList, c ∈ "0123456789abcdef".toList) ∧
    (∀ uid uid' : String, uid = uid' →
      getUserStorageId uid = getUserStorageId uid') := by
  constructor
  · intro uid
    constructor
    · unfold getUserStorageId
      rw [List.length_asString, List.length_take, SHA256.length_digestHex]
      decide
    · intro c hc
      unfold getUserStorageId at hc
      rw [List.toList_asString] at hc
      exact SHA256.digestHex_mem _ c (List.take_subset _ _ hc)
  · intro uid uid' h
    rw [h]

theorem isEmpty_false_of_ne (s : String) (h : s ≠ "") : s.isEmpty = false := by
  cases he : s.isEmpty
  · rfl
  · exact absurd ((String.isEmpty_iff s).mp he) h

theorem downloadUrlHandler_some (sign : String → String)
    (files : List FileRecord) (uid key : String) (hkey : key ≠ "") :
    downloadUrlHandler sign files uid (some key) =
      match findByOwnerAndKey files uid key with
      | none => (.notFound, [.metaQuery uid])
      | some data =>
        (.ok (sign key) key data.originalName data.mimeType,
         [.metaQuery uid, .s3SignGet key]) := by
  unfold downloadUrlHandler
  have hfalse : jsFalsyStr (some key) = false := isEmpty_false_of_ne key hkey
  rw [hfalse]
  rfl

theorem findByOwnerAndKey_matches (files : List FileRecord) (uid key : String)
    (r : FileRecord) (h : findByOwnerAndKey files uid key = some r) :
    r.uid = uid ∧ r.objectKey = some key := by
  have := List.find?_some h
  simpa [Bool.and_eq_true, beq_iff_eq] using this

/-- Claim C1: an authenticated POST /download-url request whose uid has no
metadata record matching the supplied objectKey (in particular when the
record exists but belongs to a different uid) answers 404 and issues no
signed download URL; when a matching record owned by the caller exists it
answers 200 with the downloadUrl, objectKey, originalName and mimeType
taken from that record. -/
theorem downloadUrl_ownership_404 :
    ∀ (sign : String → String) (files : List FileRecord) (uid key : String),
      key ≠ "" →
      ((∀ r ∈ files, ¬(r.uid = uid ∧ r.objectKey = some key)) →
        downloadUrlHandler sign files uid (some key) =
          (.notFound, [.metaQuery uid]) ∧
        ∀ k, Effect.s3SignGet k ∉ (downloadUrlHandler sign files uid (some key)).2) ∧
      (∀ r, findByOwnerAndKey files uid key = some r →
        r.uid = uid ∧ r.objectKey = some key ∧
        downloadUrlHandler sign files uid (some key) =
          (.ok (sign key) key r.originalName r.mimeType,
           [.metaQuery uid, .s3SignGet key])) := by
  intro sign files uid key hkey
  constructor
  · intro hnone
    have hfind : findByOwnerAndKey files uid key = none := by
      unfold findByOwnerAndKey
      rw [List.find?_eq_none]
      intro r hr
      simp only [Bool.and_eq_true, beq_iff_eq]
      exact fun hcontra => hnone r hr hcontra
    rw [downloadUrlHandler_some sign files uid key hkey, hfind]
    constructor
    · rfl
    · intro k hk
      simp at hk
  · intro r hr
    obtain ⟨h1, h2⟩ := findByOwnerAndKey_matches files uid key r hr
    refine ⟨h1, h2, ?_⟩
    rw [downloadUrlHandler_some sign files uid key hkey, hr]

/-- A record for concrete witness scenarios: a file of user "bob". -/
def sampleRec : FileRecord :=
  ⟨"f1", "bob", "ns", "bkt", some "k1", "report.pdf", "application/pdf",
   none, 5⟩

/-- Witness for C1: user "alice" asks for "bob"'s key "k1" and gets 404
with no signed URL issued. -/
theorem downloadUrl_ownership_404_witness :
    downloadUrlHandler (fun s => s) [sampleRec] "alice" (some "k1") =
      (.notFound, [.metaQuery "alice"]) :=
  ((downloadUrl_ownership_404 (fun s => s) [sampleRec] "alice" "k1"
    (by decide)).1 (by decide)).1

/-- Claim C8: a successful POST /upload-url answers 200 with
{uploadUrl, objectKey, bucket} where the objectKey is
`namespace(uid) ++ "/" ++ token ++ "-" ++ sanitize(fileName)`, so every
issued key begins with the caller's own namespace followed by '/'. -/
theorem uploadUrl_key_shape :
    ∀ (sign : String → String) (bucket uid uuid fn ft : String),
      fn ≠ "" → ft ≠ "" →
      uploadUrlHandler sign bucket uid uuid (some fn) (some ft) =
        (.ok ⟨sign (getUserStorageId uid ++ "/" ++ uuid ++ "-" ++ sanitizeFileName fn),
              getUserStorageId uid ++ "/" ++ uuid ++ "-" ++ sanitizeFileName fn,
              bucket⟩,
         [.s3SignPut (getUserStorageId uid ++ "/" ++ uuid ++ "-" ++ sanitizeFileName fn)]) ∧
      ∃ rest, getUserStorageId uid ++ "/" ++ uuid ++ "-" ++ sanitizeFileName fn =
        getUserStorageId uid ++ "/" ++ rest := by
  intro sign bucket uid uuid fn ft hfn hft
  constructor
  · unfold uploadUrlHandler
    have h1 : jsFalsyStr (some fn) = false := isEmpty_false_of_ne fn hfn
    have h2 : jsFalsyStr (some ft) = false := isEmpty_false_of_ne ft hft
    rw [h1, h2]
    rfl
  · exact ⟨uuid ++ "-" ++ sanitizeFileName fn, rfl⟩

/-- Witness for C8: a concrete upload-url request; its key starts with the
caller's namespace. -/
theorem uploadUrl_key_shape_witness :
    ∃ rest, getUserStorageId "U1" ++ "/" ++ "tok" ++ "-" ++
        sanitizeFileName "a/b/report.pdf" =
      getUserStorageId "U1" ++ "/" ++ rest :=
  (uploadUrl_key_shape (fun s => s) "bkt" "U1" "tok" "a/b/report.pdf"
    "application/pdf" (by decide) (by decide)).2

/-- Claim C9: an authenticated request to /upload-url, /files or
/download-url that misses a required field answers 400 with no
object-store or metadata-store call made (an empty effect trace, the
metadata store untouched). -/
theorem missing_field_400 :
    ∀ (sign : String → String) (bucket uid uuid newId : String) (now : Nat)
      (files : List FileRecord)
      (fileName fileType objectKey originalName mimeType : Option String)
      (size : Option Int),
      ((jsFalsyStr fileName || jsFalsyStr fileType) = true →
        uploadUrlHandler sign bucket uid uuid fileName fileType =
          (.badRequest, [])) ∧
      ((jsFalsyStr objectKey || jsFalsyStr originalName || jsFalsyStr mimeType) = true →
        filesHandler bucket newId now files uid objectKey originalName mimeType size =
          (.badRequest, files, [])) ∧
      (jsFalsyStr objectKey = true →
        downloadUrlHandler sign files uid objectKey = (.badRequest, [])) := by
  intro sign bucket uid uuid newId now files fileName fileType objectKey
    originalName mimeType size
  refine ⟨fun h => ?_, fun h => ?_, fun h => ?_⟩
  · unfold uploadUrlHandler
    rw [h]
    rfl
  · unfold filesHandler
    rw [h]
    rfl
  · unfold downloadUrlHandler
    rw [h]
    rfl

theorem jsOrNull_ne_some_zero (s : Option Int) : jsOrNull s ≠ some 0 := by
  unfold jsOrNull
  cases s with
  | none => simp
  | some n =>
    by_cases hn : n = 0
    · simp [hn]
    · simp [hn]

/-- Claim C10 (implicit): in POST /files the optional size field passes
through `size || null`, so a supplied size of 0 is persisted and echoed
back as null — indistinguishable from an absent size — and a stored
record's size is never the number 0. -/
theorem files_size_zero_stored_null :
    ∀ (bucket newId : String) (now : Nat) (files : List FileRecord)
      (uid : String) (objectKey originalName mimeType : Option String),
      (jsFalsyStr objectKey || jsFalsyStr originalName || jsFalsyStr mimeType) = false →
      (∃ r, filesHandler bucket newId now files uid objectKey originalName
            mimeType (some 0) =
          (.created r, files ++ [r], [.metaAdd newId]) ∧ r.size = none) ∧
      (∀ size r files' effs,
        filesHandler bucket newId now files uid objectKey originalName
            mimeType size = (.created r, files', effs) →
        r.size ≠ some 0) := by
  intro bucket newId now files uid objectKey originalName mimeType h
  constructor
  · unfold filesHandler
    rw [h]
    simp only [Bool.false_eq_true, if_false]
    exact ⟨_, rfl, rfl⟩
  · intro size r files' effs heq
    unfold filesHandler at heq
    rw [h] at heq
    simp only [Bool.false_eq_true, if_false, Prod.mk.injEq,
      FilesResult.created.injEq] at heq
    have : r.size = jsOrNull size := by
      rw [← heq.1]
    rw [this]
    exact jsOrNull_ne_some_zero size

/-- Witness for C10: a concrete /files request with size 0 stores and
echoes null. -/
theorem files_size_zero_stored_null_witness :
    ∃ r, filesHandler "bkt" "id1" 7 [] "U1" (some "k") (some "n.pdf")
        (some "application/pdf") (some 0) =
      (.created r, [] ++ [r], [.metaAdd "id1"]) ∧ r.size = none :=
  (files_size_zero_stored_null "bkt" "id1" 7 [] "U1" (some "k") (some "n.pdf")
    (some "application/pdf") (by decide)).1

/-- Claim C2: DELETE /files/:id answers 404 when no record has that id,
403 (not 404) when the record belongs to another uid, 500 when the
caller's own record lacks an objectKey, and otherwise deletes the object
and the record and answers success. -/
theorem deleteFile_statuses :
    ∀ (s3ok : String → Bool) (st : St) (uid fileId : String),
      fileId ≠ "" →
      (getById st.files fileId = none →
        deleteFileHandler s3ok st uid fileId =
          (.notFound, st, [.metaGet fileId])) ∧
      (∀ d, getById st.files fileId = some d → d.uid ≠ uid →
        deleteFileHandler s3ok st uid fileId =
          (.forbidden, st, [.metaGet fileId])) ∧
      (∀ d, getById st.files fileId = some d → d.uid = uid →
        d.objectKey = none →
        deleteFileHandler s3ok st uid fileId =
          (.inconsistent, st, [.metaGet fileId])) ∧
      (∀ d key, getById st.files fileId = some d → d.uid = uid →
        d.objectKey = some key → key ≠ "" → s3ok key = true →
        deleteFileHandler s3ok st uid fileId =
          (.ok,
           ⟨st.objects.filter (fun k => k != key),
            st.files.filter (fun r => r.id != fileId)⟩,
           [.metaGet fileId, .s3Delete key, .metaDelete fileId])) := by
  intro s3ok st uid fileId hid
  have hempty : fileId.isEmpty = false := isEmpty_false_of_ne fileId hid
  refine ⟨fun hnone => ?_, fun d hd hne => ?_, fun d hd he hkey => ?_,
    fun d key hd he hkey hk hs3 => ?_⟩
  · unfold deleteFileHandler
    rw [hempty, hnone]
    rfl
  · unfold deleteFileHandler
    rw [hempty, hd]
    simp only [Bool.false_eq_true, if_false]
    rw [if_pos hne]
  · unfold deleteFileHandler
    rw [hempty, hd]
    simp only [Bool.false_eq_true, if_false]
    rw [if_neg (by simp [he]), hkey]
  · unfold deleteFileHandler
    rw [hempty, hd]
    simp only [Bool.false_eq_true, if_false]
    rw [if_neg (by simp [he]), hkey]
    have hkf : key.isEmpty = false := isEmpty_false_of_ne key hk
    simp only [hkf, Bool.false_eq_true, if_false, hs3, if_true]

/-- A store with "bob"'s file for the delete witness. -/
def sampleStore : St := ⟨["k1"], [sampleRec]⟩

/-- Witness for C2: "bob" deletes his own file "f1"; both the S3 object and
the metadata record go away and the handler answers success. -/
theorem deleteFile_statuses_witness :
    deleteFileHandler (fun _ => true) sampleStore "bob" "f1" =
      (.ok,
       ⟨sampleStore.objects.filter (fun k => k != "k1"),
        sampleStore.files.filter (fun r => r.id != "f1")⟩,
       [.metaGet "f1", .s3Delete "k1", .metaDelete "f1"]) :=
  (deleteFile_statuses (fun _ => true) sampleStore "bob" "f1"
    (by decide)).2.2.2 sampleRec "k1" (by decide) rfl rfl (by decide) rfl

/-- Claim C3: in DELETE /files/:id the object-store delete always comes
before the metadata delete — a metadata delete appears in the effect trace
only in the one trace where a successful object delete precedes it — and
when the object delete fails the metadata delete is never attempted and
the state is unchanged. -/
theorem deleteFile_object_before_metadata :
    ∀ (s3ok : String → Bool) (st : St) (uid fileId : String),
      (∀ i, Effect.metaDelete i ∈ (deleteFileHandler s3ok st uid fileId).2.2 →
        ∃ key, s3ok key = true ∧
          (deleteFileHandler s3ok st uid fileId).2.2 =
            [.metaGet fileId, .s3Delete key, .metaDelete fileId]) ∧
      (∀ key, Effect.s3Delete key ∈ (deleteFileHandler s3ok st uid fileId).2.2 →
        s3ok key = false →
        (deleteFileHandler s3ok st uid fileId).2.1 = st ∧
        ∀ i, Effect.metaDelete i ∉ (deleteFileHandler s3ok st uid fileId).2.2) := by
  intro s3ok st uid fileId
  unfold deleteFileHandler
  split
  · exact ⟨fun i hi => by simp at hi, fun key hkey => by simp at hkey⟩
  · split
    · exact ⟨fun i hi => by simp at hi, fun key hkey => by simp at hkey⟩
    · rename_i data hdata
      split
      · exact ⟨fun i hi => by simp at hi, fun key hkey => by simp at hkey⟩
      · split
        · exact ⟨fun i hi => by simp at hi, fun key hkey => by simp at hkey⟩
        · rename_i key hkey
          split
          · exact ⟨fun i hi => by simp at hi, fun k hk => by simp at hk⟩
          · split
            · rename_i hs3
              refine ⟨fun i hi => ⟨key, hs3, rfl⟩, fun k hk hkf => ?_⟩
              have : k = key := by simpa using hk
              rw [this] at hkf
              rw [hs3] at hkf
              cases hkf
            · rename_i hs3
              have hs3f : s3ok key = false := by
                cases hv : s3ok key
                · rfl
                · exact absurd hv hs3
              refine ⟨fun i hi => by simp at hi, fun k hk hkf => ⟨rfl, ?_⟩⟩
              intro i hi
              simp at hi

/-- Claim C4: a request to a protected route whose bearer token is missing,
empty, or rejected by the identity provider answers 401 with no
object-store or metadata-store call made; on a verified token the
middleware hands the stable uid to the handler, whose response and effects
are the route's. -/
theorem auth_gate :
    ∀ (verify : String → Option String) (authHeader : Option String),
      ((bearerToken authHeader = none ∨ bearerToken authHeader = some "" ∨
          ∃ t, bearerToken authHeader = some t ∧ verify t = none) →
        ∀ (α : Type) (handler : String → α × List Effect),
          runProtected verify authHeader handler = (.unauthenticated, [])) ∧
      (∀ t uid, bearerToken authHeader = some t → t ≠ "" → verify t = some uid →
        ∀ (α : Type) (handler : String → α × List Effect),
          runProtected verify authHeader handler =
            (.handled (handler uid).1, (handler uid).2)) := by
  intro verify authHeader
  constructor
  · rintro (h | h | ⟨t, ht, hv⟩) α handler
    · unfold runProtected
      rw [h]
    · unfold runProtected
      rw [h]
      rfl
    · unfold runProtected
      rw [ht]
      by_cases he : t.isEmpty
      · simp [he]
      · simp [he, hv]
  · intro t uid ht hne hv α handler
    unfold runProtected
    rw [ht]
    simp [isEmpty_false_of_ne t hne, hv]

end FileVault
